import Mathlib

/-!
Verification of the TM-align output parser and aggregator
(`tmalign_parser.py`, function `parse_and_save`).

Strings are modelled as lists of characters (`Str`).  Python floats are
modelled exactly as rationals: every numeric string this parser can feed
to `float` is captured by the character classes `[\d\.]+` or `\d+`, hence
is a plain non-negative decimal numeral whose value is an exact rational.
Each regular expression of the script is embedded as a dedicated scanning
function; the embeddings follow Python `re.search` semantics (leftmost
match, greedy and lazy quantifiers as written).  For each pattern the
character classes of adjacent quantified pieces are disjoint, so the
backtracking engine admits exactly the maximal-run reading implemented
below.
-/

abbrev Str := List Char

/-- ASCII whitespace: the characters of Python `\s` that occur in TM-align
output (Python `\s` additionally matches some non-ASCII whitespace, which
the tool never emits). -/
def isWS (c : Char) : Bool :=
  c = ' ' || c = '\t' || c = '\n' || c = '\r' || c = '\x0b' || c = '\x0c'

/-- ASCII digit: the characters of Python `\d` occurring in this output. -/
def isDigitCh (c : Char) : Bool := '0' ≤ c && c ≤ '9'

/-- The character class of the capture `[\d\.]+`. -/
def isDD (c : Char) : Bool := isDigitCh c || c = '.'

/-- Match a literal at the head of the string, returning the rest. -/
def dropLit : Str → Str → Option Str
  | [], s => some s
  | _ :: _, [] => none
  | l :: ls, c :: cs => if l = c then dropLit ls cs else none

/-- Python `re.search`: try the anchored matcher at every position, left to
right, and return the first success (the position at end of string
included). -/
def searchPos {α : Type} (f : Str → Option α) : Str → Option α
  | [] => f []
  | c :: cs =>
    match f (c :: cs) with
    | some v => some v
    | none => searchPos f cs

def chain2Lit : Str := "Name of Chain_2:".data

def tmScoreLit : Str := "TM-score=".data

def tm1Lit : Str := "(if normalized by length of Chain_1,".data

def tm2Lit : Str := "(if normalized by length of Chain_2,".data

def tmAlignLit : Str := "TM-align".data

/-- Anchored matcher for `Name of Chain_2:\s*([^\s(]+)`: after the literal,
skip the maximal whitespace run, then capture the maximal non-empty run of
characters that are neither whitespace nor `(`. -/
def tryChain2 (s : Str) : Option Str :=
  (dropLit chain2Lit s).bind fun r =>
    let tok := (r.dropWhile isWS).takeWhile fun c => !isWS c && c ≠ '('
    if tok = [] then none else some tok

/-- Anchored matcher for `LIT\s*(\d+)`. -/
def tryNum (lit : Str) (s : Str) : Option Str :=
  (dropLit lit s).bind fun r =>
    let tok := (r.dropWhile isWS).takeWhile isDigitCh
    if tok = [] then none else some tok

/-- Anchored matcher for `LIT\s*([\d\.]+)`. -/
def tryDD (lit : Str) (s : Str) : Option Str :=
  (dropLit lit s).bind fun r =>
    let tok := (r.dropWhile isWS).takeWhile isDD
    if tok = [] then none else some tok

/-- The tail `.*?\)` of the TM-score patterns: `.` does not match a
newline, so the match requires a `)` strictly before the end of the
current line. -/
def hasCloseParen : Str → Bool
  | [] => false
  | c :: cs => if c = ')' then true else if c = '\n' then false else hasCloseParen cs

/-- Anchored matcher for
`TM-score=\s*([\d\.]+)\s*\(if normalized by length of Chain_N,.*?\)`. -/
def tryTM (tailLit : Str) (s : Str) : Option Str :=
  (dropLit tmScoreLit s).bind fun r =>
    let r1 := r.dropWhile isWS
    let tok := r1.takeWhile isDD
    if tok = [] then none
    else
      match dropLit tailLit ((r1.dropWhile isDD).dropWhile isWS) with
      | none => none
      | some r2 => if hasCloseParen r2 then some tok else none

def searchChain2 : Str → Option Str := searchPos tryChain2

def searchQlen : Str → Option Str := searchPos (tryNum "Length of Chain_1:".data)

def searchTlen : Str → Option Str := searchPos (tryNum "Length of Chain_2:".data)

def searchRMSD : Str → Option Str := searchPos (tryDD "RMSD=".data)

def searchIdent : Str → Option Str := searchPos (tryDD "Seq_ID=n_identical/n_aligned=".data)

def searchTM1 : Str → Option Str := searchPos (tryTM tm1Lit)

def searchTM2 : Str → Option Str := searchPos (tryTM tm2Lit)

/-- Whether a literal occurs anywhere in the string. -/
def containsLit (lit s : Str) : Bool := (searchPos (dropLit lit) s).isSome

/-- Value of a run of ASCII digits. -/
def digitsVal (s : Str) : ℕ := s.foldl (fun n c => 10 * n + (c.toNat - 48)) 0

/-- Python `float` on the strings this script can produce: the arguments
are always captures of `[\d\.]+` or `\d+`, i.e. non-empty strings of
digits and dots.  Such a string is a valid float literal exactly when it
contains at most one dot and at least one digit; its value is the exact
decimal value.  (Python `float` also accepts signs, exponents, etc.,
which those captures cannot produce.)  `none` models a raised
`ValueError`. -/
def pyFloat (s : Str) : Option ℚ :=
  let ip := s.takeWhile isDigitCh
  match s.dropWhile isDigitCh with
  | [] => if ip = [] then none else some (digitsVal ip : ℚ)
  | '.' :: fr =>
    if fr.all isDigitCh && !(ip = [] && fr = []) then
      some ((digitsVal ip : ℚ) + (digitsVal fr : ℚ) / (10 : ℚ) ^ fr.length)
    else none
  | _ => none

/-- `float(score) if score else 0.0` for one TM-score string. -/
def floatOrZero (s : Str) : Option ℚ := if s = [] then some 0 else pyFloat s

/-- The `try`-guarded `chosen = max(float(score1) if score1 else 0.0,
float(score2) if score2 else 0.0)`: a `ValueError` from either conversion
aborts the whole expression and the `except` branch sets `chosen = 0.0`. -/
def chosenOf (s1 s2 : Str) : ℚ :=
  match floatOrZero s1, floatOrZero s2 with
  | some a, some b => max a b
  | _, _ => 0

/-- One alignment record, a row of the per-query table.  String-valued
fields are the raw captures, empty when the pattern did not match. -/
structure Record where
  query : Str
  template : Str
  qlen : Str
  tlen : Str
  rmsd : Str
  ident : Str
  tm1 : Str
  tm2 : Str
  chosen : ℚ
deriving DecidableEq

/-- Field extraction for one block (lines 75 to 102 of the script). -/
def mkRecord (basename block : Str) : Record :=
  { query := basename ++ ".pdb".data
    template := (searchChain2 block).getD [] ++ ".pdb".data
    qlen := (searchQlen block).getD []
    tlen := (searchTlen block).getD []
    rmsd := (searchRMSD block).getD []
    ident := (searchIdent block).getD []
    tm1 := (searchTM1 block).getD []
    tm2 := (searchTM2 block).getD []
    chosen := chosenOf ((searchTM1 block).getD []) ((searchTM2 block).getD []) }

/-- The lazy-dot tail of the banner `\*+\s*TM-align.*?\*+`: scan to the
first `*` on the current line, then consume the maximal star run. -/
def scanToStars : Str → Option (Str × Str × Str)
  | [] => none
  | c :: cs =>
    if c = '*' then
      some ([], (c :: cs).takeWhile (fun x => x = '*'), (c :: cs).dropWhile (fun x => x = '*'))
    else if c = '\n' then none
    else (scanToStars cs).map fun t => (c :: t.1, t.2.1, t.2.2)

/-- Anchored matcher for the banner `\*+\s*TM-align.*?\*+`, returning the
matched text and the rest. -/
def tryBanner (s : Str) : Option (Str × Str) :=
  if s.takeWhile (fun c => c = '*') = [] then none
  else
    let r1 := s.dropWhile fun c => c = '*'
    match dropLit tmAlignLit (r1.dropWhile isWS) with
    | none => none
    | some r3 =>
      match scanToStars r3 with
      | none => none
      | some (mid, st2, rest) =>
        some ((s.takeWhile fun c => c = '*') ++ r1.takeWhile isWS ++ tmAlignLit ++ mid ++ st2,
          rest)

/-- Leftmost banner match: `(text before, matched banner, rest)`. -/
def findBanner : Str → Option (Str × Str × Str)
  | [] => none
  | c :: cs =>
    match tryBanner (c :: cs) with
    | some (m, r) => some ([], m, r)
    | none => (findBanner cs).map fun t => (c :: t.1, t.2.1, t.2.2)

/-- `re.split` of the banner pattern, fueled: returns the pieces between
matches and the matched separators.  Every banner match is non-empty, so
fuel `s.length` always suffices (`reSplit` below). -/
def reSplitFuel : ℕ → Str → List Str × List Str
  | 0, s => ([s], [])
  | n + 1, s =>
    match findBanner s with
    | none => ([s], [])
    | some (p, m, r) => (p :: (reSplitFuel n r).1, m :: (reSplitFuel n r).2)

/-- `re.split(r'\*+\s*TM-align.*?\*+', text)` together with the list of
matched banners. -/
def reSplit (s : Str) : List Str × List Str := reSplitFuel s.length s

/-- The list `blocks` of the script: the pieces of the split. -/
def pySplit (s : Str) : List Str := (reSplit s).1

/-- The record-building loop over `blocks[1:]` (lines 74 to 102). -/
def parseBlocks (basename text : Str) : List Record :=
  ((pySplit text).drop 1).foldl (fun recs blk => recs ++ [mkRecord basename blk]) []

/-- The module constant `score_threshold = 0.6`. -/
def score_threshold : ℚ := (6 : ℚ) / 10

/-- Insertion step of a descending sort on the `chosen` column.  The
script calls `DataFrame.sort_values('chosen', ascending=False)` with the
pandas default `kind='quicksort'`, which fixes the descending order but
not the relative order of tied rows; this model realises one such order.
Every theorem below that involves the sorted table depends only on it
being a permutation of the input, which holds for every kind. -/
def insertDesc (x : Record) : List Record → List Record
  | [] => [x]
  | y :: ys => if x.chosen < y.chosen then y :: insertDesc x ys else x :: y :: ys

/-- Descending sort of a per-query table by `chosen`. -/
def sortDesc : List Record → List Record
  | [] => []
  | x :: xs => insertDesc x (sortDesc xs)

/-- The stack filter `df_sorted[df_sorted['chosen'] >= score_threshold]`
(line 116).  The `chosen` column always holds an actual float — line 98
assigns a float on every path and `pd.to_numeric` is the identity on
floats — so the comparison never sees a missing value. -/
def stackOf (t : ℚ) (l : List Record) : List Record :=
  l.filter fun r => t ≤ r.chosen

/-- A written tab-separated file: whether the header row is present, and
the data rows. -/
structure TabFile where
  header : Bool
  rows : List Record
deriving DecidableEq

/-- Everything `parse_and_save` produces for one `.aln` file. -/
structure QueryOutput where
  tabFile : TabFile
  sortedFile : TabFile
  stackFile : Option TabFile
  stackCount : ℕ
deriving DecidableEq

/-- The per-file body of the loop (lines 66 to 119): parse, write the raw
table with header, sort, write the sorted table with header, filter the
stack, and write it headerless only when non-empty. -/
def processQuery (t : ℚ) (basename text : Str) : QueryOutput :=
  let records := parseBlocks basename text
  let sorted := sortDesc records
  let stack := stackOf t sorted
  { tabFile := { header := true, rows := records }
    sortedFile := { header := true, rows := sorted }
    stackFile := if stack = [] then none else some { header := false, rows := stack }
    stackCount := stack.length }

/-- Python `dict` assignment `d[k] = v`: update in place when the key
exists (keeping its position), else append. -/
def dictInsert (k : Str) (v : ℕ) : List (Str × ℕ) → List (Str × ℕ)
  | [] => [(k, v)]
  | (k1, v1) :: rest => if k1 = k then (k1, v) :: rest else (k1, v1) :: dictInsert k v rest

/-- The accumulating loop over all `.aln` files: per-file outputs,
`all_summary`, and `stack_counts`. -/
def runLoop (t : ℚ) :
    List (Str × Str) → List (Str × QueryOutput) → List (List Record) → List (Str × ℕ) →
      List (Str × QueryOutput) × List (List Record) × List (Str × ℕ)
  | [], outs, summ, counts => (outs, summ, counts)
  | p :: rest, outs, summ, counts =>
    let q := processQuery t p.1 p.2
    runLoop t rest (outs ++ [(p.1, q)]) (summ ++ [q.sortedFile.rows])
      (dictInsert p.1 q.stackCount counts)

/-- The results of a whole `parse_and_save` run. -/
structure RunResult where
  outputs : List (Str × QueryOutput)
  combo : Except String (List Record)
  stackCounts : List (Str × ℕ)

/-- `parse_and_save` over the list of `(basename, file text)` pairs found
by the glob.  `pd.concat` raises `ValueError("No objects to concatenate")`
on an empty list of frames (line 122), modelled by the `Except.error`
branch; otherwise `ignore_index=True` concatenation is row concatenation. -/
def parse_and_save (t : ℚ) (inputs : List (Str × Str)) : RunResult :=
  let res := runLoop t inputs [] [] []
  { outputs := res.1
    combo :=
      if res.2.1 = [] then Except.error "No objects to concatenate"
      else Except.ok res.2.1.flatten
    stackCounts := res.2.2 }

/-- Reassemble pieces and separators of a split. -/
def interleave : List Str → List Str → Str
  | [], _ => []
  | p :: _, [] => p
  | p :: ps, m :: ms => p ++ m ++ interleave ps ms

/-- Block exercising the `except` branch: the TM1 capture `1.2.3` matches
`[\d\.]+` but raises in `float`, while TM2 parses as `0.9`. -/
def cxBlock : Str :=
  ("TM-score= 1.2.3 (if normalized by length of Chain_1, x)\n" ++
   "TM-score= 0.9 (if normalized by length of Chain_2, x)").data

/-- Block whose `Name of Chain_2:` value is a path, as produced when the
invoker passes templates as `t/<name>.pdb`. -/
def dirBlock : Str :=
  "Name of Chain_2: t/e2vldA2.pdb (to be superimposed onto Chain_1)".data

/-- A small well-formed block. -/
def demoBlock : Str :=
  ("Name of Chain_2: t1.pdb (x)\n" ++
   "TM-score= 0.72 (if normalized by length of Chain_1, x)\n" ++
   "TM-score= 0.65 (if normalized by length of Chain_2, x)").data

/-- A minimal one-block file text whose single record clears the
threshold. -/
def demoText : Str :=
  "*TM-align*\nTM-score= 0.7 (if normalized by length of Chain_1, x)\n".data

/-- A file text containing no banner at all. -/
def noBannerText : Str := "nothing to see here".data

/-- The record parsed from `demoText`. -/
def demoRecord : Record :=
  { query := "qA.pdb".data, template := ".pdb".data, qlen := [], tlen := [], rmsd := []
    ident := [], tm1 := "0.7".data, tm2 := [], chosen := (7 : ℚ) / 10 }

/-- A record sitting exactly on the threshold. -/
def r0 : Record :=
  { query := "q.pdb".data, template := "t.pdb".data, qlen := [], tlen := [], rmsd := []
    ident := [], tm1 := "0.6".data, tm2 := [], chosen := (6 : ℚ) / 10 }

/-- A two-file input list: one file with a block, one with none. -/
def inputs0 : List (Str × Str) := [("qA".data, demoText), ("qB".data, noBannerText)]

/-! ## Lemmas about the matchers -/

theorem dropLit_append : ∀ (l s r : Str), dropLit l s = some r → l ++ r = s := by
  intro l
  induction l with
  | nil =>
    intro s r h
    simp only [dropLit, Option.some.injEq] at h
    simp [h]
  | cons a ls ih =>
    intro s r h
    cases s with
    | nil => simp [dropLit] at h
    | cons c cs =>
      simp only [dropLit] at h
      split at h
      · next heq => simp [heq, ih cs r h]
      · cases h

theorem searchPos_none_mono {α β : Type} (f : Str → Option α) (g : Str → Option β)
    (hp : ∀ s, f s = none → g s = none) :
    ∀ s, searchPos f s = none → searchPos g s = none := by
  intro s
  induction s with
  | nil =>
    intro h
    exact hp [] h
  | cons c cs ih =>
    intro h
    simp only [searchPos] at h ⊢
    cases hf : f (c :: cs) with
    | some v => simp only [hf] at h; exact Option.noConfusion h
    | none =>
      simp only [hf] at h
      simp only [hp (c :: cs) hf]
      exact ih h

theorem tryChain2_none (s : Str) (h : dropLit chain2Lit s = none) : tryChain2 s = none := by
  simp [tryChain2, h]

theorem scanToStars_append :
    ∀ (s m st r : Str), scanToStars s = some (m, st, r) → m ++ st ++ r = s := by
  intro s
  induction s with
  | nil => intro m st r h; simp [scanToStars] at h
  | cons c cs ih =>
    intro m st r h
    simp only [scanToStars] at h
    split at h
    · next hstar =>
      simp only [Option.some.injEq, Prod.mk.injEq] at h
      obtain ⟨h1, h2, h3⟩ := h
      subst h1 h2 h3
      simp [List.takeWhile_append_dropWhile]
    · split at h
      · cases h
      · cases hs : scanToStars cs with
        | none => simp only [hs] at h; exact Option.noConfusion h
        | some t =>
          obtain ⟨t1, t2, t3⟩ := t
          simp only [hs, Option.map_some', Option.some.injEq, Prod.mk.injEq] at h
          obtain ⟨h1, h2, h3⟩ := h
          subst h1 h2 h3
          simpa using ih t1 t2 t3 hs

theorem tryBanner_append (s m r : Str) (h : tryBanner s = some (m, r)) :
    m ++ r = s ∧ m ≠ [] := by
  simp only [tryBanner] at h
  split at h
  · cases h
  · next hne =>
    cases hd : dropLit tmAlignLit ((s.dropWhile fun c => c = '*').dropWhile isWS) with
    | none => simp only [hd] at h; exact Option.noConfusion h
    | some r3 =>
      simp only [hd] at h
      cases hsc : scanToStars r3 with
      | none => simp only [hsc] at h; exact Option.noConfusion h
      | some t =>
        obtain ⟨mid, st2, rest⟩ := t
        simp only [hsc, Option.some.injEq, Prod.mk.injEq] at h
        obtain ⟨hm, hr⟩ := h
        subst hm hr
        refine ⟨?_, ?_⟩
        · have e1 : mid ++ (st2 ++ rest) = r3 := by
            simpa [List.append_assoc] using scanToStars_append r3 mid st2 rest hsc
          have e2 : tmAlignLit ++ r3 = (s.dropWhile fun c => c = '*').dropWhile isWS :=
            dropLit_append _ _ _ hd
          have e3 := List.takeWhile_append_dropWhile isWS (s.dropWhile fun c => c = '*')
          have e4 := List.takeWhile_append_dropWhile (fun c => decide (c = '*')) s
          simp only [List.append_assoc]
          rw [e1, e2, e3, e4]
        · intro hcon
          simp only [List.append_eq_nil] at hcon
          exact hne hcon.1.1.1.1

theorem findBanner_spec :
    ∀ (s p m r : Str), findBanner s = some (p, m, r) → p ++ m ++ r = s ∧ m ≠ [] := by
  intro s
  induction s with
  | nil => intro p m r h; simp [findBanner] at h
  | cons c cs ih =>
    intro p m r h
    simp only [findBanner] at h
    cases hb : tryBanner (c :: cs) with
    | some t =>
      obtain ⟨m1, r1⟩ := t
      simp only [hb, Option.some.injEq, Prod.mk.injEq] at h
      obtain ⟨hp, hm, hr⟩ := h
      subst hp hm hr
      simpa using tryBanner_append _ _ _ hb
    | none =>
      simp only [hb] at h
      cases hf : findBanner cs with
      | none => simp only [hf] at h; exact Option.noConfusion h
      | some t =>
        obtain ⟨p1, m1, r1⟩ := t
        simp only [hf, Option.map_some', Option.some.injEq, Prod.mk.injEq] at h
        obtain ⟨hp, hm, hr⟩ := h
        subst hp hm hr
        obtain ⟨e, hne⟩ := ih _ _ _ hf
        refine ⟨?_, hne⟩
        simpa [List.append_assoc] using e

theorem findBanner_rest_lt (s p m r : Str) (h : findBanner s = some (p, m, r)) :
    r.length < s.length := by
  obtain ⟨e, hne⟩ := findBanner_spec s p m r h
  have hlen := congrArg List.length e
  simp only [List.length_append] at hlen
  have hm : 0 < m.length := List.length_pos.mpr hne
  omega

/-! ## Lemmas about the banner split -/

theorem reSplitFuel_congr :
    ∀ (n1 : ℕ), ∀ (n2 : ℕ) (s : Str), s.length ≤ n1 → s.length ≤ n2 →
      reSplitFuel n1 s = reSplitFuel n2 s := by
  intro n1
  induction n1 with
  | zero =>
    intro n2 s h1 _
    have hs : s = [] := List.eq_nil_of_length_eq_zero (Nat.le_zero.mp h1)
    subst hs
    cases n2 with
    | zero => rfl
    | succ k => simp [reSplitFuel, findBanner]
  | succ k ih =>
    intro n2 s h1 h2
    cases n2 with
    | zero =>
      have hs : s = [] := List.eq_nil_of_length_eq_zero (Nat.le_zero.mp h2)
      subst hs
      simp [reSplitFuel, findBanner]
    | succ j =>
      simp only [reSplitFuel]
      cases hfb : findBanner s with
      | none => rfl
      | some t =>
        obtain ⟨p, m, r⟩ := t
        have hr : r.length < s.length := findBanner_rest_lt s p m r hfb
        have e := ih j r (by omega) (by omega)
        show (p :: (reSplitFuel k r).1, m :: (reSplitFuel k r).2)
          = (p :: (reSplitFuel j r).1, m :: (reSplitFuel j r).2)
        rw [e]

theorem reSplit_eq_none (s : Str) (h : findBanner s = none) : reSplit s = ([s], []) := by
  cases s with
  | nil => rfl
  | cons c cs =>
    simp only [reSplit, List.length_cons, reSplitFuel, h]

theorem reSplit_eq_some (s p m r : Str) (h : findBanner s = some (p, m, r)) :
    reSplit s = (p :: (reSplit r).1, m :: (reSplit r).2) := by
  cases s with
  | nil => simp [findBanner] at h
  | cons c cs =>
    have hr : r.length < (c :: cs).length := findBanner_rest_lt _ p m r h
    simp only [List.length_cons] at hr
    simp only [reSplit, List.length_cons, reSplitFuel, h]
    rw [reSplitFuel_congr cs.length r.length r (by omega) le_rfl]

theorem reSplit_main :
    ∀ (n : ℕ) (s : Str), s.length ≤ n →
      interleave (reSplit s).1 (reSplit s).2 = s ∧
      (reSplit s).1.length = (reSplit s).2.length + 1 ∧
      ∀ m ∈ (reSplit s).2, m ≠ [] := by
  intro n
  induction n with
  | zero =>
    intro s h
    have hs : s = [] := List.eq_nil_of_length_eq_zero (Nat.le_zero.mp h)
    subst hs
    refine ⟨rfl, rfl, by simp [reSplit, reSplitFuel]⟩
  | succ k ih =>
    intro s hs
    cases hfb : findBanner s with
    | none =>
      rw [reSplit_eq_none s hfb]
      exact ⟨rfl, rfl, by simp⟩
    | some t =>
      obtain ⟨p, m, r⟩ := t
      obtain ⟨hjoin, hne⟩ := findBanner_spec s p m r hfb
      have hr : r.length ≤ k := by
        have := findBanner_rest_lt s p m r hfb
        omega
      obtain ⟨ih1, ih2, ih3⟩ := ih r hr
      rw [reSplit_eq_some s p m r hfb]
      refine ⟨?_, ?_, ?_⟩
      · simp only [interleave]
        rw [ih1]
        simpa [List.append_assoc] using hjoin
      · simpa using ih2
      · intro x hx
        simp only [List.mem_cons] at hx
        rcases hx with hx | hx
        · subst hx; exact hne
        · exact ih3 x hx

theorem reSplit_interleave (s : Str) :
    interleave (reSplit s).1 (reSplit s).2 = s :=
  (reSplit_main s.length s le_rfl).1

theorem reSplit_pieces_len (s : Str) :
    (reSplit s).1.length = (reSplit s).2.length + 1 :=
  (reSplit_main s.length s le_rfl).2.1

theorem reSplit_seps_ne (s : Str) : ∀ m ∈ (reSplit s).2, m ≠ [] :=
  (reSplit_main s.length s le_rfl).2.2

/-! ## Lemmas about the record loop, the sort and the filter -/

theorem foldl_append_eq_map {α β : Type} (f : α → β) :
    ∀ (l : List α) (acc : List β),
      l.foldl (fun recs b => recs ++ [f b]) acc = acc ++ l.map f := by
  intro l
  induction l with
  | nil => intro acc; simp
  | cons a as ih =>
    intro acc
    simp only [List.foldl_cons, List.map_cons]
    rw [ih]
    simp

theorem parseBlocks_eq_map (b text : Str) :
    parseBlocks b text = ((pySplit text).drop 1).map (mkRecord b) := by
  unfold parseBlocks
  rw [foldl_append_eq_map]
  simp

theorem insertDesc_perm (x : Record) : ∀ l, (insertDesc x l).Perm (x :: l) := by
  intro l
  induction l with
  | nil => simp [insertDesc]
  | cons y ys ih =>
    simp only [insertDesc]
    split
    · exact (ih.cons y).trans (List.Perm.swap x y ys)
    · exact List.Perm.refl _

theorem sortDesc_perm : ∀ l, (sortDesc l).Perm l := by
  intro l
  induction l with
  | nil => simp [sortDesc]
  | cons x xs ih =>
    simp only [sortDesc]
    exact (insertDesc_perm x (sortDesc xs)).trans (ih.cons x)

theorem mem_sortDesc (r : Record) (l : List Record) : r ∈ sortDesc l ↔ r ∈ l :=
  (sortDesc_perm l).mem_iff

theorem mem_stackOf (t : ℚ) (l : List Record) (r : Record) :
    r ∈ stackOf t l ↔ r ∈ l ∧ t ≤ r.chosen := by
  simp [stackOf, List.mem_filter]

/-! ## Lemmas about the chosen score -/

theorem pyFloat_nonneg (s : Str) (q : ℚ) (h : pyFloat s = some q) : 0 ≤ q := by
  simp only [pyFloat] at h
  split at h
  · split at h
    · exact Option.noConfusion h
    · simp only [Option.some.injEq] at h
      subst h
      positivity
  · split at h
    · simp only [Option.some.injEq] at h
      subst h
      positivity
    · exact Option.noConfusion h
  · exact Option.noConfusion h

theorem floatOrZero_nonneg (s : Str) (q : ℚ) (h : floatOrZero s = some q) : 0 ≤ q := by
  simp only [floatOrZero] at h
  split at h
  · simp only [Option.some.injEq] at h
    subst h
    exact le_refl 0
  · exact pyFloat_nonneg s q h

theorem chosenOf_some_some (s1 s2 : Str) (a b : ℚ)
    (h1 : floatOrZero s1 = some a) (h2 : floatOrZero s2 = some b) :
    chosenOf s1 s2 = max a b := by
  simp [chosenOf, h1, h2]

theorem chosenOf_none (s1 s2 : Str)
    (h : floatOrZero s1 = none ∨ floatOrZero s2 = none) : chosenOf s1 s2 = 0 := by
  rcases h with h | h
  · cases h2 : floatOrZero s2 <;> simp [chosenOf, h, h2]
  · cases h1 : floatOrZero s1 <;> simp [chosenOf, h, h1]

theorem chosenOf_nonneg (s1 s2 : Str) : 0 ≤ chosenOf s1 s2 := by
  cases h1 : floatOrZero s1 with
  | none => simp [chosenOf_none s1 s2 (Or.inl h1)]
  | some a =>
    cases h2 : floatOrZero s2 with
    | none => simp [chosenOf_none s1 s2 (Or.inr h2)]
    | some b =>
      rw [chosenOf_some_some s1 s2 a b h1 h2]
      exact le_trans (floatOrZero_nonneg s1 a h1) (le_max_left a b)

/-! ## Lemmas about the aggregation loop -/

theorem dictInsert_notmem (k : Str) (v : ℕ) :
    ∀ l : List (Str × ℕ), k ∉ l.map Prod.fst → dictInsert k v l = l ++ [(k, v)] := by
  intro l
  induction l with
  | nil => intro _; rfl
  | cons p rest ih =>
    intro h
    obtain ⟨k1, v1⟩ := p
    simp only [List.map_cons, List.mem_cons, not_or] at h
    simp only [dictInsert]
    rw [if_neg (fun he => h.1 he.symm)]
    simp [ih h.2]

theorem runLoop_summ (t : ℚ) :
    ∀ (inputs : List (Str × Str)) (outs : List (Str × QueryOutput))
      (summ : List (List Record)) (counts : List (Str × ℕ)),
      (runLoop t inputs outs summ counts).2.1 =
        summ ++ inputs.map fun p => (processQuery t p.1 p.2).sortedFile.rows := by
  intro inputs
  induction inputs with
  | nil => intro outs summ counts; simp [runLoop]
  | cons p ps ih =>
    intro outs summ counts
    simp only [runLoop, List.map_cons]
    rw [ih]
    simp

theorem runLoop_counts (t : ℚ) :
    ∀ (inputs : List (Str × Str)) (counts : List (Str × ℕ))
      (outs : List (Str × QueryOutput)) (summ : List (List Record)),
      (inputs.map Prod.fst).Nodup →
      (∀ kk ∈ inputs.map Prod.fst, kk ∉ counts.map Prod.fst) →
      (runLoop t inputs outs summ counts).2.2 =
        counts ++ inputs.map fun p => (p.1, (processQuery t p.1 p.2).stackCount) := by
  intro inputs
  induction inputs with
  | nil => intro counts outs summ _ _; simp [runLoop]
  | cons p ps ih =>
    intro counts outs summ hnd hdis
    simp only [List.map_cons, List.nodup_cons] at hnd
    simp only [runLoop, List.map_cons]
    rw [dictInsert_notmem p.1 (processQuery t p.1 p.2).stackCount counts
      (hdis p.1 (by simp))]
    rw [ih (counts ++ [(p.1, (processQuery t p.1 p.2).stackCount)]) _ _ hnd.2 ?_]
    · simp
    · intro kk hk
      simp only [List.map_append, List.map_cons, List.map_nil, List.mem_append,
        List.mem_singleton, not_or]
      refine ⟨hdis kk (by simp [hk]), ?_⟩
      intro he
      rw [he] at hk
      exact hnd.1 hk

/-! ## Claim theorems -/

unseal Rat.mul Rat.inv Rat.add in
/-- C1 (counterexample): the claim says a parse exception for one TM-score
is treated as 0.0 for that value only, so with TM1 unparseable and TM2
equal to 0.9 the chosen score would be max(0.0, 0.9) = 0.9.  On the block
`cxBlock` the code captures TM1 = "1.2.3" (which raises in `float`) and
TM2 = "0.9" (which parses), yet the `except` branch sets chosen = 0.0:
the parseable TM2 is discarded as well. -/
theorem chosen_not_per_value_on_unparseable_tm1 :
    (mkRecord "qA".data cxBlock).tm1 = "1.2.3".data ∧
    (mkRecord "qA".data cxBlock).tm2 = "0.9".data ∧
    pyFloat "1.2.3".data = none ∧
    pyFloat "0.9".data = some ((9 : ℚ) / 10) ∧
    (mkRecord "qA".data cxBlock).chosen = 0 ∧
    ¬(mkRecord "qA".data cxBlock).chosen = max 0 ((9 : ℚ) / 10) := by
  decide

/-- C1 (amended): for every block, chosen = max(TM1-or-0.0, TM2-or-0.0)
whenever each present TM-score string parses; if either present TM-score
string fails to parse, the exception is caught and the whole record gets
chosen = 0.0 (the other value is discarded too); the exception never
propagates and chosen is always at least 0.0. -/
theorem chosen_score_semantics (b block : Str) :
    (mkRecord b block).chosen = chosenOf (mkRecord b block).tm1 (mkRecord b block).tm2 ∧
    0 ≤ (mkRecord b block).chosen ∧
    (∀ a q : ℚ, floatOrZero (mkRecord b block).tm1 = some a →
      floatOrZero (mkRecord b block).tm2 = some q →
      (mkRecord b block).chosen = max a q) ∧
    ((floatOrZero (mkRecord b block).tm1 = none ∨
      floatOrZero (mkRecord b block).tm2 = none) → (mkRecord b block).chosen = 0) := by
  refine ⟨rfl, chosenOf_nonneg _ _, ?_, ?_⟩
  · intro a q h1 h2
    exact chosenOf_some_some _ _ a q h1 h2
  · intro h
    exact chosenOf_none _ _ h

unseal Rat.mul Rat.inv Rat.add in
/-- Witness for `chosen_score_semantics` at the concrete block
`demoBlock`, whose TM-scores parse as 0.72 and 0.65. -/
theorem chosen_score_semantics_witness :
    floatOrZero (mkRecord "qA".data demoBlock).tm1 = some ((72 : ℚ) / 100) ∧
    floatOrZero (mkRecord "qA".data demoBlock).tm2 = some ((65 : ℚ) / 100) ∧
    (mkRecord "qA".data demoBlock).chosen = max ((72 : ℚ) / 100) ((65 : ℚ) / 100) :=
  ⟨by decide, by decide,
    (chosen_score_semantics "qA".data demoBlock).2.2.1 _ _ (by decide) (by decide)⟩

unseal Rat.mul Rat.inv Rat.add in
/-- C3: on a block whose `Name of Chain_2:` value is the path
`t/e2vldA2.pdb` (exactly what the invoker passes to the tool), the capture
`[^\s(]+` keeps the directory part, so the template identifier is
`t/e2vldA2.pdb.pdb` and contains a path separator — contradicting the
script's own docstring ("summary tables with filenames only") and the
comment above the extraction ("Extract only filenames (no directories)"). -/
theorem template_identifier_keeps_directory :
    (mkRecord "e1bamA1".data dirBlock).template = "t/e2vldA2.pdb.pdb".data ∧
    '/' ∈ (mkRecord "e1bamA1".data dirBlock).template := by
  decide

/-- C4: a record is in the stack table iff it is in the sorted table and
its chosen score is at least the threshold; with the default threshold
0.6, a record whose chosen score is exactly 0.6 is kept (the boundary is
inclusive). -/
theorem stack_membership_iff (t : ℚ) (l : List Record) (r : Record) :
    (r ∈ stackOf t l ↔ r ∈ l ∧ t ≤ r.chosen) ∧
    (r.chosen = score_threshold → (r ∈ stackOf score_threshold l ↔ r ∈ l)) := by
  refine ⟨mem_stackOf t l r, ?_⟩
  intro hb
  rw [mem_stackOf score_threshold l r, hb]
  simp

/-- Witness for `stack_membership_iff` at the record `r0`, whose chosen
score is exactly 0.6. -/
theorem stack_membership_iff_witness :
    r0.chosen = score_threshold ∧ (r0 ∈ stackOf score_threshold [r0] ↔ r0 ∈ [r0]) :=
  ⟨rfl, (stack_membership_iff score_threshold [r0] r0).2 rfl⟩

/-- C5: the global concatenation fails with the `pd.concat` error exactly
when there are zero per-query files; with at least one file it never
produces this error. -/
theorem concat_empty_error_iff (t : ℚ) (inputs : List (Str × Str)) :
    (parse_and_save t inputs).combo = Except.error "No objects to concatenate" ↔
      inputs = [] := by
  simp only [parse_and_save]
  rw [runLoop_summ t inputs [] [] []]
  simp only [List.nil_append]
  cases inputs with
  | nil => simp
  | cons p ps => simp

/-- C6: the banner split is exhaustive and order preserving — the pieces
interleaved with the matched banners reassemble the input text, there is
exactly one piece more than banners, every matched banner is non-empty,
the table keeps one record per banner occurrence (the pre-banner piece is
discarded), and with zero banner occurrences the split is the whole text
and the per-query table is empty, without error. -/
theorem block_split_spec (b text : Str) :
    interleave (reSplit text).1 (reSplit text).2 = text ∧
    (reSplit text).1.length = (reSplit text).2.length + 1 ∧
    (∀ m ∈ (reSplit text).2, m ≠ []) ∧
    (parseBlocks b text).length = (reSplit text).2.length ∧
    (findBanner text = none → reSplit text = ([text], []) ∧ parseBlocks b text = []) := by
  refine ⟨reSplit_interleave text, reSplit_pieces_len text, reSplit_seps_ne text, ?_, ?_⟩
  · rw [parseBlocks_eq_map]
    simp [pySplit, reSplit_pieces_len text]
  · intro h
    refine ⟨reSplit_eq_none text h, ?_⟩
    rw [parseBlocks_eq_map]
    simp [pySplit, reSplit_eq_none text h]

/-- Witness for `block_split_spec` at a text containing no banner. -/
theorem block_split_spec_witness :
    findBanner noBannerText = none ∧
    reSplit noBannerText = ([noBannerText], []) ∧
    parseBlocks "q".data noBannerText = [] :=
  ⟨by decide,
    ((block_split_spec "q".data noBannerText).2.2.2.2 (by decide)).1,
    ((block_split_spec "q".data noBannerText).2.2.2.2 (by decide)).2⟩

/-- C7: on a block in which the literal `Name of Chain_2:` never occurs,
the template search returns no match and the record's template identifier
is the empty string (rendered as the bare suffix `.pdb`); extraction is a
total function, so no exception is possible. -/
theorem missing_chain2_yields_empty (b block : Str)
    (h : containsLit chain2Lit block = false) :
    searchChain2 block = none ∧ (mkRecord b block).template = ".pdb".data := by
  have hnone : searchPos (dropLit chain2Lit) block = none := by
    cases ho : searchPos (dropLit chain2Lit) block with
    | none => rfl
    | some v => simp [containsLit, ho] at h
  have h2 : searchPos tryChain2 block = none :=
    searchPos_none_mono (dropLit chain2Lit) tryChain2 tryChain2_none block hnone
  refine ⟨h2, ?_⟩
  show (searchChain2 block).getD [] ++ ".pdb".data = ".pdb".data
  rw [show searchChain2 block = none from h2]
  rfl

/-- Witness for `missing_chain2_yields_empty` at a concrete block without
the literal. -/
theorem missing_chain2_yields_empty_witness :
    containsLit chain2Lit "no chain line".data = false ∧
    searchChain2 "no chain line".data = none ∧
    (mkRecord "q".data "no chain line".data).template = ".pdb".data :=
  ⟨by decide,
    (missing_chain2_yields_empty "q".data "no chain line".data (by decide)).1,
    (missing_chain2_yields_empty "q".data "no chain line".data (by decide)).2⟩

/-- C8: the per-query stack file exists iff the stack table is non-empty,
and when it exists it holds exactly the stack rows with no header row,
while the unsorted and sorted per-query files are written with a header. -/
theorem stack_file_written_iff_nonempty (t : ℚ) (b text : Str) :
    ((processQuery t b text).stackFile = none ↔
      stackOf t (processQuery t b text).sortedFile.rows = []) ∧
    (∀ f, (processQuery t b text).stackFile = some f →
      f.header = false ∧ f.rows = stackOf t (processQuery t b text).sortedFile.rows) ∧
    (processQuery t b text).sortedFile.header = true ∧
    (processQuery t b text).tabFile.header = true := by
  simp only [processQuery]
  by_cases hst : stackOf t (sortDesc (parseBlocks b text)) = []
  · simp [hst]
  · simp [hst]

unseal Rat.mul Rat.inv Rat.add in
/-- Witness for `stack_file_written_iff_nonempty`: on `demoText` the stack
is the single record `demoRecord` and the stack file is written
headerless. -/
theorem stack_file_written_iff_nonempty_witness :
    (processQuery score_threshold "qA".data demoText).stackFile =
      some { header := false, rows := [demoRecord] } ∧
    ({ header := false, rows := [demoRecord] } : TabFile).header = false ∧
    ({ header := false, rows := [demoRecord] } : TabFile).rows =
      stackOf score_threshold (processQuery score_threshold "qA".data demoText).sortedFile.rows := by
  refine ⟨by decide, ?_, ?_⟩
  · exact ((stack_file_written_iff_nonempty score_threshold "qA".data demoText).2.1 _
      (by decide)).1
  · exact ((stack_file_written_iff_nonempty score_threshold "qA".data demoText).2.1 _
      (by decide)).2

/-- C9: with pairwise distinct base names (which the glob over one
directory guarantees), the count registry holds exactly one entry per
processed file, keyed by the query identifier, valued with its stack size
and in processing order; a file with zero blocks gets the entry 0, an
empty sorted table, and the run's global concatenation still succeeds
whenever at least one file was processed. -/
theorem stack_counts_registry (t : ℚ) (inputs : List (Str × Str))
    (hnd : (inputs.map Prod.fst).Nodup) :
    (parse_and_save t inputs).stackCounts =
      (inputs.map fun p => (p.1, (processQuery t p.1 p.2).stackCount)) ∧
    (∀ p ∈ inputs, findBanner p.2 = none →
      (processQuery t p.1 p.2).stackCount = 0 ∧
      (processQuery t p.1 p.2).sortedFile.rows = []) ∧
    (inputs ≠ [] → ∃ rows, (parse_and_save t inputs).combo = Except.ok rows) := by
  refine ⟨?_, ?_, ?_⟩
  · simp only [parse_and_save]
    rw [runLoop_counts t inputs [] [] [] hnd (by simp)]
    simp
  · intro p _ hfb
    have hpb : parseBlocks p.1 p.2 = [] := by
      rw [parseBlocks_eq_map]
      simp [pySplit, reSplit_eq_none p.2 hfb]
    constructor
    · simp [processQuery, hpb, sortDesc, stackOf]
    · simp [processQuery, hpb, sortDesc]
  · intro hne
    refine ⟨(inputs.map fun p => (processQuery t p.1 p.2).sortedFile.rows).flatten, ?_⟩
    simp only [parse_and_save]
    rw [runLoop_summ t inputs [] [] []]
    simp only [List.nil_append]
    rw [if_neg (by simp [hne])]

/-- Witness for `stack_counts_registry` at the two-file input `inputs0`,
whose second file has no banner. -/
theorem stack_counts_registry_witness :
    (inputs0.map Prod.fst).Nodup ∧
    (parse_and_save score_threshold inputs0).stackCounts =
      (inputs0.map fun p => (p.1, (processQuery score_threshold p.1 p.2).stackCount)) ∧
    (processQuery score_threshold "qB".data noBannerText).stackCount = 0 ∧
    (∃ rows, (parse_and_save score_threshold inputs0).combo = Except.ok rows) :=
  ⟨by decide,
    (stack_counts_registry score_threshold inputs0 (by decide)).1,
    ((stack_counts_registry score_threshold inputs0 (by decide)).2.1
      ("qB".data, noBannerText) (by decide) (by decide)).1,
    (stack_counts_registry score_threshold inputs0 (by decide)).2.2 (by decide)⟩

/-- C10: parsing is deterministic and context free — the record list built
by the loop is exactly the per-block pure function `mkRecord` mapped over
the blocks after the first, so every parsed value is a function of the
file's base name and the block's own text only, and two runs on the same
input produce the same records in the same order. -/
theorem parse_pure_function (b text : Str) :
    parseBlocks b text = ((pySplit text).drop 1).map (mkRecord b) :=
  parseBlocks_eq_map b text
